import Mathlib

/-!
Shallow embedding of the `roller` firmware (a shake-activated digital dice
roller) and proofs about it.

Conventions of the embedding:
* Machine integers (`u8`, `u16`, `usize`) are modelled as `Nat`.  Where the
  source can wrap (release-profile wrapping arithmetic), the wrap is written
  out explicitly as `% 256` / `% 65536`; where the source guards against
  underflow, plain truncated `Nat` subtraction coincides with the `u16`
  subtraction actually executed.
* Fallible code is modelled with `Option`: a `panic!()` (or an out-of-bounds
  index, which panics in Rust) becomes `none`.
* Hardware register writes (timer prescaler, ADC mux, display I/O ports) are
  outside the model; the timer frequency chosen by `timer_set_normal` /
  `timer_set_sleeping` is kept as an abstract `TickRate` field so that state
  transitions can be observed.
-/

/-! ## `random.rs` -/

/-- `Method` from `random.rs`: how entropy is transformed into a result. -/
inductive Method where
  | MaskSquareOfTwo : Method
  | RemainderBelowLimit : ℕ → Method
deriving DecidableEq

/-- `Params` from `random.rs`: precalculated params for result generation. -/
structure Params where
  bound : ℕ
  method : Method
deriving DecidableEq

/-- `params_for` from `random.rs`.  The source computes
`(bound - 1) & bound == 0` on `u8`; for `bound = 0` the wrapped `bound - 1`
is `255` and `255 & 0 = 0`, which matches `Nat` truncated subtraction
(`0 - 1 = 0`, `0 &&& 0 = 0`), so plain `Nat` subtraction is faithful. -/
def params_for (bound : ℕ) : Params :=
  { bound := bound
    method :=
      if (bound - 1) &&& bound = 0 then
        Method.MaskSquareOfTwo
      else
        Method.RemainderBelowLimit (255 - 255 % bound) }

/-- `generate` from `random.rs`.  `entropy` is a byte (`< 256` at every call
site: the device passes `entropy.0 as u8`).  The source would panic on
`bound = 0` (remainder by zero); every use in this file has `bound ≥ 1`. -/
def generate (params : Params) (entropy : ℕ) : Option ℕ :=
  match params.method with
  | Method.MaskSquareOfTwo => some (entropy % params.bound)
  | Method.RemainderBelowLimit limit =>
      if entropy ≤ limit then some (entropy % params.bound) else none

/-- Number of the 256 possible entropy bytes accepted by `generate` for the
sampler precomputed from `bound`. -/
def acceptedCount (bound : ℕ) : ℕ :=
  ((Finset.range 256).filter (fun e => (generate (params_for bound) e).isSome)).card

/-- Number of the 256 possible entropy bytes that `generate` maps to the
value `v` for the sampler precomputed from `bound`. -/
def valueCount (bound v : ℕ) : ℕ :=
  ((Finset.range 256).filter (fun e => generate (params_for bound) e = some v)).card

/-! ## `scales.rs` -/

/-- `Zone` from `scales.rs`: a range on a number scale mapped to a value.
`end` is a Lean keyword, hence the field name `end_`. -/
structure Zone where
  value : ℕ
  start : ℕ
  end_ : ℕ
deriving DecidableEq

/-- The `zone` constructor shortcut from `scales.rs`. -/
def zone (value start end_ : ℕ) : Zone := ⟨value, start, end_⟩

/-- `QUANTITY` from `scales.rs`: values 1-20 on ~equal zones of 0-1023. -/
def QUANTITY : List Zone :=
  [zone 20 0 52, zone 19 53 103, zone 18 104 154, zone 17 155 205,
   zone 16 206 256, zone 15 257 307, zone 14 308 358, zone 13 359 409,
   zone 12 410 460, zone 11 461 511, zone 10 512 562, zone 9 563 613,
   zone 8 614 664, zone 7 665 715, zone 6 716 766, zone 5 767 817,
   zone 4 818 868, zone 3 869 919, zone 2 920 970, zone 1 971 1023]

/-- `QUALITY` from `scales.rs`: die side counts on ~equal zones of 0-1023. -/
def QUALITY : List Zone :=
  [zone 20 0 169, zone 12 170 339, zone 10 340 509,
   zone 8 510 679, zone 6 680 849, zone 4 850 1023]

/-- Wrapping `u16` subtraction (release-profile semantics of `a - b`). -/
def wsub16 (a b : ℕ) : ℕ := (a + 65536 - b) % 65536

/-- Wrapping `u16` addition (release-profile semantics of `a + b`). -/
def wadd16 (a b : ℕ) : ℕ := (a + b) % 65536

/-- `detect_zone` from `scales.rs`: first zone containing the position;
the source panics when no zone matches, modelled as `none`. -/
def detect_zone (position : ℕ) (zones : List Zone) : Option Zone :=
  zones.find? (fun z => z.start ≤ position && position ≤ z.end_)

/-- `detect_zone_change` from `scales.rs`.  The guard
`current_zone.start > dead_area` makes `current_zone.start - dead_area`
plain subtraction; `s.end - dead_area` and the two additions are unguarded
`u16` arithmetic and are modelled with their wrapping semantics. -/
def detect_zone_change (new_position dead_area : ℕ) (current_zone : Zone)
    (all_zones : List Zone) : Option Zone :=
  if current_zone.start > dead_area ∧ new_position < current_zone.start - dead_area then
    all_zones.find? (fun s => new_position < wsub16 s.end_ dead_area)
  else if new_position > wadd16 current_zone.end_ dead_area then
    all_zones.reverse.find? (fun s => new_position > wadd16 s.start dead_area)
  else
    none

/-- Indexing helper for the two scales (used only with in-range indices). -/
def scaleZone (zones : List Zone) (i : ℕ) : Zone := zones.getD i (zone 0 0 0)

/-- `true` when the option holds a zone whose range contains `p`
(the defined-and-in-range check of claim C6). -/
def inReturnedZone (p : ℕ) : Option Zone → Bool
  | none => false
  | some z => z.start ≤ p && p ≤ z.end_

/-- Boolean form of claim C6 at one position: `detect_zone` returns a zone
containing `p` and exactly one zone of each scale contains `p`. -/
def c6check (p : ℕ) : Bool :=
  inReturnedZone p (detect_zone p QUANTITY) &&
  (QUANTITY.countP (fun z => z.start ≤ p && p ≤ z.end_) == 1) &&
  inReturnedZone p (detect_zone p QUALITY) &&
  (QUALITY.countP (fun z => z.start ≤ p && p ≤ z.end_) == 1)

/-- Boolean form of the amended claim C4 on one scale, for all dead areas
below `dmax`: at `start - d - 1` the scan returns the current zone. -/
def c4check (scale : List Zone) (dmax i : ℕ) : Bool :=
  (List.range dmax).all (fun d =>
    decide ((scaleZone scale i).start ≤ d) ||
    (detect_zone_change ((scaleZone scale i).start - d - 1) d (scaleZone scale i)
        scale == some (scaleZone scale i)))

/-! ## `utils.rs` (`Agg`) -/

/-- `Agg<T, SIZE>` from `utils.rs`, at the instantiations the firmware uses
(`T` = `u8`/`u16`, accumulator `S` = `u16`; all casts are lossless for the
ranges stored, per the source's usage).  `data.length` plays `SIZE`. -/
structure Agg where
  data : List (Option ℕ)
  next_put_at : ℕ
deriving DecidableEq

/-- `Agg::new`. -/
def Agg.new (size : ℕ) : Agg := ⟨List.replicate size none, 0⟩

/-- `Agg::put`: overwrite slot `next_put_at`, advance the cursor mod SIZE. -/
def Agg.put (a : Agg) (n : ℕ) : Agg :=
  { data := a.data.set a.next_put_at (some n)
    next_put_at := (a.next_put_at + 1) % a.data.length }

/-- The accumulation loop of `Agg::sum_of_first`: add up the slots, abort
with `none` at the first never-written slot. -/
def sumAux : ℕ → List (Option ℕ) → Option ℕ
  | acc, [] => some acc
  | _, none :: _ => none
  | acc, some x :: rest => sumAux (acc + x) rest

/-- `Agg::sum_of_first`. -/
def Agg.sum_of_first (a : Agg) (n : ℕ) : Option ℕ :=
  if n > a.data.length then none
  else sumAux 0 (a.data.take n)

/-- `Agg::avg_of_first`.  The source divides in the accumulator type
(`sum / n`, truncating integer division).  The source's `n = 0` case would
divide by zero (a panic); the only uses are `avg_full` with `SIZE = 16`. -/
def Agg.avg_of_first (a : Agg) (n : ℕ) : Option ℕ :=
  (a.sum_of_first n).map (fun sum => sum / n)

/-- `Agg::avg_full`. -/
def Agg.avg_full (a : Agg) : Option ℕ := a.avg_of_first a.data.length

/-- The min/max scan of `Agg::range_of_first`, aborting at a missing slot. -/
def rangeAux : Option ℕ → Option ℕ → List (Option ℕ) → Option (ℕ × ℕ)
  | min?, max?, [] =>
      match min?, max? with
      | some mn, some mx => some (mn, mx)
      | _, _ => none
  | _, _, none :: _ => none
  | min?, max?, some x :: rest =>
      rangeAux
        (match min? with
         | none => some x
         | some m => if x < m then some x else some m)
        (match max? with
         | none => some x
         | some m => if x > m then some x else some m)
        rest

/-- `Agg::range_of_first`.  The source slices `data[0..n]` (panicking when
`n > SIZE`); it is only called with `n = SIZE`, where `take` is exact. -/
def Agg.range_of_first (a : Agg) (n : ℕ) : Option (ℕ × ℕ) :=
  rangeAux none none (a.data.take n)

/-- `Agg::amplitude_of_first`: `max - min` (never underflows). -/
def Agg.amplitude_of_first (a : Agg) (n : ℕ) : Option ℕ :=
  (a.range_of_first n).map (fun p => p.2 - p.1)

/-- `Agg::amplitude_full`. -/
def Agg.amplitude_full (a : Agg) : Option ℕ :=
  a.amplitude_of_first a.data.length

/-- Specification helper: feed a whole sample sequence into an aggregator. -/
def Agg.putSeq (a : Agg) (vs : List ℕ) : Agg := vs.foldl Agg.put a

/-- Specification helper: the arithmetic sum of the values currently held in
a list of slots (missing slots contribute nothing; it is only applied to
slot lists that are fully written). -/
def sumValues (l : List (Option ℕ)) : ℕ := (l.map (fun o => o.getD 0)).sum

/-! ## `display.rs` -/

/-- Segment bits from `display.rs` (`segment::A` .. `segment::POINT`). -/
def segA : ℕ := 1
def segB : ℕ := 2
def segC : ℕ := 4
def segD : ℕ := 8
def segE : ℕ := 16
def segF : ℕ := 32
def segG : ℕ := 64
def segPOINT : ℕ := 128

/-- `symbol::ZERO` .. `symbol::NINE`, `symbol::DELTA` from `display.rs`. -/
def symZERO : ℕ := segA ||| segB ||| segC ||| segD ||| segE ||| segF
def symONE : ℕ := segB ||| segC
def symTWO : ℕ := segA ||| segB ||| segD ||| segE ||| segG
def symTHREE : ℕ := segA ||| segB ||| segC ||| segD ||| segG
def symFOUR : ℕ := segB ||| segC ||| segF ||| segG
def symFIVE : ℕ := segA ||| segC ||| segD ||| segF ||| segG
def symSIX : ℕ := segA ||| segC ||| segD ||| segE ||| segF ||| segG
def symSEVEN : ℕ := segA ||| segB ||| segC
def symEIGHT : ℕ := segA ||| segB ||| segC ||| segD ||| segE ||| segF ||| segG
def symNINE : ℕ := segA ||| segB ||| segC ||| segD ||| segF ||| segG
def symDELTA : ℕ := segB ||| segC ||| segD ||| segE ||| segG

/-- `symbol::MAP` from `display.rs`: digit glyphs 0-9 (10 entries). -/
def symMAP : List ℕ :=
  [symZERO, symONE, symTWO, symTHREE, symFOUR,
   symFIVE, symSIX, symSEVEN, symEIGHT, symNINE]

/-- `position::D4` from `display.rs` (channel bit of the rightmost digit). -/
def posD4 : ℕ := 64

/-- `Display` from `display.rs`: 4-symbol buffer plus the multiplexer
cursor.  The I/O-port writes of `refresh`/`force_output` drive hardware and
are outside the model. -/
structure Display where
  buffer : List ℕ
  next_index : ℕ
deriving DecidableEq

/-- `Display::new`. -/
def Display.new : Display := ⟨[0, 0, 0, 0], 0⟩

/-- The scan loop of `Display::refresh` (`for n in 1..=len`): starting with
`k` iterations left, advance past zero slots; returns the final cursor and
whether the early `return` (all slots zero) was taken.  The `k = 0` pattern
is the loop's last iteration (`n == len`). -/
def refreshScan (buffer : List ℕ) : ℕ → ℕ → ℕ × Bool
  | next, 0 => (next, false)
  | next, k + 1 =>
      if buffer.getD next 0 = 0 then
        let next' := (next + 1) % 4
        if k = 0 then (next', true)
        else refreshScan buffer next' k
      else
        refreshScan buffer next k

/-- `Display::refresh`: advance the active digit to the next non-blank slot;
the port writes displaying `buffer[next_index]` are hardware effects. -/
def Display.refresh (d : Display) : Display :=
  let r := refreshScan d.buffer d.next_index d.buffer.length
  if r.2 then { d with next_index := r.1 }
  else { d with next_index := (r.1 + 1) % 4 }

/-- `Display::force_output` writes a symbol directly to the I/O ports,
bypassing (and not changing) the buffer; in the model it is the identity on
the modelled state. -/
def Display.force_output (d : Display) (_symbol _position : ℕ) : Display := d

/-- The digit-emitting loop of `encode_u16_into` / `encode_u8_into`, over
the remaining divisors.  `symMAP[d]` with `d ≥ 10` is an out-of-bounds index
(a panic in the source): `none`. -/
def encodeLoop : List ℕ → List ℕ → ℕ → ℕ → Option (List ℕ × ℕ)
  | [], buf, _, size => some (buf, size)
  | divisor :: rest, buf, n, size =>
      if size < buf.length then
        let d := n / divisor
        if size > 0 ∨ d > 0 then
          if d < 10 then
            encodeLoop rest (buf.set size (symMAP.getD d 0)) (n % divisor) (size + 1)
          else none
        else encodeLoop rest buf (n % divisor) size
      else some (buf, size)

/-- Zero out the slots from `size` to the end of the buffer
(the trailing `for i in size..buf.len()` loop of the encoders). -/
def zeroTail (b : List ℕ) (size : ℕ) : List ℕ :=
  (List.range b.length).map (fun i => if i < size then b.getD i 0 else 0)

/-- The divisor chains of the encoders, as lists: `decimalDivisors k`
is `[10^k, …, 10, 1]` (`k = 3` for `encode_u16_into`, `k = 2` for
`encode_u8_into`). -/
def decimalDivisors : ℕ → List ℕ
  | 0 => [1]
  | k + 1 => 10 ^ (k + 1) :: decimalDivisors k

/-- `encode_u16_into` from `display.rs`: render `n` into `buf`, returning
the written buffer and the digit count, or `none` on the out-of-bounds
`symbol::MAP` index that a fifth digit would take.  Callers always pass a
non-empty buffer, so the `buf[0] = ZERO` write is in bounds. -/
def encode_u16_into (buf : List ℕ) (n : ℕ) : Option (List ℕ × ℕ) :=
  match encodeLoop [1000, 100, 10, 1] buf n 0 with
  | none => none
  | some (b, size) =>
      if size = 0 then some (zeroTail (b.set 0 symZERO) 1, 1)
      else some (zeroTail b size, size)

/-- `encode_u8_into` from `display.rs` (divisors 100, 10, 1). -/
def encode_u8_into (buf : List ℕ) (n : ℕ) : Option (List ℕ × ℕ) :=
  match encodeLoop [100, 10, 1] buf n 0 with
  | none => none
  | some (b, size) =>
      if size = 0 then some (zeroTail (b.set 0 symZERO) 1, 1)
      else some (zeroTail b size, size)

/-- `Display::set_number`: right-aligned digits with a point appended. -/
def Display.set_number (d : Display) (n : ℕ) : Option Display :=
  match encode_u16_into [0, 0, 0, 0] n with
  | none => none
  | some (tmp, size) =>
      let shift := 4 - size
      let b := (List.range 4).map (fun i => if i < shift then 0 else tmp.getD (i - shift) 0)
      some { d with buffer := b.set 3 ((b.getD 3 0) ||| segPOINT) }

/-! ## `animation.rs` -/

/-- `Spinner` from `animation.rs`. -/
structure Spinner where
  next_frame : ℕ
  ticks_left : ℕ
deriving DecidableEq

/-- `Spinner::new`. -/
def Spinner.new : Spinner := ⟨0, 0⟩

/-- `Spinner::TICKS_PER_FRAME` = 200 / 25. -/
def Spinner.TICKS_PER_FRAME : ℕ := 200 / 25

/-- `Spinner::FRAMES`. -/
def Spinner.FRAMES : List (List ℕ) :=
  [[segA, 0, 0, 0], [0, segA, 0, 0], [0, 0, segA, 0], [0, 0, 0, segA],
   [0, 0, 0, segB], [0, 0, 0, segC], [0, 0, 0, segD], [0, 0, segD, 0],
   [0, segD, 0, 0], [segD, 0, 0, 0], [segE, 0, 0, 0], [segF, 0, 0, 0]]

/-- `Spinner::advance`: returns the updated spinner and display buffer. -/
def Spinner.advance (s : Spinner) (buffer : List ℕ) : Spinner × List ℕ :=
  if s.ticks_left > 0 then ({ s with ticks_left := s.ticks_left - 1 }, buffer)
  else
    (⟨(s.next_frame + 1) % Spinner.FRAMES.length, Spinner.TICKS_PER_FRAME - 1⟩,
     Spinner.FRAMES.getD s.next_frame [0, 0, 0, 0])

/-- `BlinkingDot` from `animation.rs`. -/
structure BlinkingDot where
  dot_visible : Bool
  ticks_left : ℕ
deriving DecidableEq

/-- `BlinkingDot::TICKS_VISIBLE` = 50 / 2. -/
def BlinkingDot.TICKS_VISIBLE : ℕ := 25

/-- `BlinkingDot::TICKS_HIDDEN` = 50 * 10. -/
def BlinkingDot.TICKS_HIDDEN : ℕ := 500

/-- `BlinkingDot::new`. -/
def BlinkingDot.new : BlinkingDot := ⟨false, BlinkingDot.TICKS_HIDDEN - 1⟩

/-- `BlinkingDot::advance`. -/
def BlinkingDot.advance (b : BlinkingDot) (d : Display) : BlinkingDot × Display :=
  if b.ticks_left > 0 then ({ b with ticks_left := b.ticks_left - 1 }, d)
  else if b.dot_visible then
    (⟨false, BlinkingDot.TICKS_HIDDEN - 1⟩, d.force_output 0 0)
  else
    (⟨true, BlinkingDot.TICKS_VISIBLE - 1⟩, d.force_output segPOINT posD4)

/-! ## `main.rs` (`Device`) -/

/-- `Measurement` from `main.rs`: the five logical ADC channels. -/
inductive Measurement where
  | PotQuantity : Measurement
  | PotQuality : Measurement
  | AccX : Measurement
  | AccY : Measurement
  | AccZ : Measurement
deriving DecidableEq

/-- `true` on the three accelerometer channels. -/
def Measurement.is_acc : Measurement → Bool
  | Measurement.AccX => true
  | Measurement.AccY => true
  | Measurement.AccZ => true
  | _ => false

/-- `State` from `main.rs` (tagged union with per-state payload). -/
inductive State where
  | Displaying : (disturbed_ticks : ℕ) → (idle_ticks : ℕ) → State
  | Rolling : (params : Params) → (quantity : ℕ) → (results : Agg) →
      (balanced_ticks : ℕ) → (animation : Spinner) → State
  | Sleeping : (disturbed_ticks : ℕ) → (animation : BlinkingDot) → State
deriving DecidableEq

/-- The hardware timer frequency selected through `timer_set_normal` /
`timer_set_sleeping` (OCR0A = 38 resp. 155), kept abstract. -/
inductive TickRate where
  | normal : TickRate
  | sleeping : TickRate
deriving DecidableEq

/-- `AccLevel` from `main.rs`: per-axis aggregations. -/
structure AccLevel where
  x : Agg
  y : Agg
  z : Agg
deriving DecidableEq

/-- `AccLevel::new` (with `AGG_SIZE = 16`). -/
def AccLevel.new : AccLevel := ⟨Agg.new 16, Agg.new 16, Agg.new 16⟩

/-- `Device` from `main.rs`.  `tick_rate` models the timer frequency chosen
via the prescaler/OCR registers (a hardware effect the claims observe). -/
structure Device where
  display : Display
  state : State
  quantity : Option Zone
  quality : Option Zone
  adc_measuring : Option Measurement
  acc_l1 : AccLevel
  acc_l2 : AccLevel
  pot_quantity : Agg
  pot_quality : Agg
  entropy : ℕ
  tick_rate : TickRate
deriving DecidableEq

/-- `MIN_FORCE_AMPLITUDE` = 40. -/
def MIN_FORCE_AMPLITUDE : ℕ := 40

/-- `TICKS_TO_DISTURB` = `(200 as f64 * 0.35) as u8`.  The f64 nearest to
0.35 is slightly below 0.35, so the product is 69.99999999999999555..,
truncated to 69. -/
def TICKS_TO_DISTURB : ℕ := 69

/-- `TICKS_TO_BALANCE` = `(200 as f64 * 0.6) as u8` = 119 (the f64 nearest
to 0.6 is slightly below 0.6; the product truncates to 119). -/
def TICKS_TO_BALANCE : ℕ := 119

/-- `TICKS_TO_SLEEP` = 200 * 30. -/
def TICKS_TO_SLEEP : ℕ := 6000

/-- `TICKS_TO_WAKE` = `(50 as f64 * 0.4) as u8` = 20 (the f64 nearest to
0.4 is slightly above 0.4; the product truncates to 20). -/
def TICKS_TO_WAKE : ℕ := 20

/-- `Device::new` (the timer is initialized at the normal rate). -/
def Device.new : Device :=
  { display := Display.new
    state := State.Displaying 0 0
    quantity := none
    quality := none
    adc_measuring := none
    acc_l1 := AccLevel.new
    acc_l2 := AccLevel.new
    pot_quantity := Agg.new 16
    pot_quality := Agg.new 16
    entropy := 0
    tick_rate := TickRate.normal }

/-- `Device::acc_has_been_disturbed`. -/
def acc_has_been_disturbed (ax ay az : ℕ) : Bool :=
  MIN_FORCE_AMPLITUDE ≤ ax || MIN_FORCE_AMPLITUDE ≤ ay || MIN_FORCE_AMPLITUDE ≤ az

/-- `Device::acc_has_been_balanced`. -/
def acc_has_been_balanced (ax ay az : ℕ) : Bool :=
  ax < MIN_FORCE_AMPLITUDE && ay < MIN_FORCE_AMPLITUDE && az < MIN_FORCE_AMPLITUDE

/-- `Device::enter_rolling`: switch the timer back to normal when coming
from `Sleeping`, then install a fresh `Rolling` payload. -/
def Device.enter_rolling (d : Device) (quantity quality : ℕ) : Device :=
  let d' :=
    match d.state with
    | State.Sleeping _ _ => { d with tick_rate := TickRate.normal }
    | _ => d
  { d' with
    state := State.Rolling (params_for quality) quantity (Agg.new 20) 0 Spinner.new }

/-- `Device::enter_displaying`. -/
def Device.enter_displaying (d : Device) : Device :=
  let d' :=
    match d.state with
    | State.Sleeping _ _ => { d with tick_rate := TickRate.normal }
    | _ => d
  { d' with state := State.Displaying 0 0 }

/-- `Device::enter_sleeping`: reduced tick rate, sleeping payload, display
forced off (`force_output 0 0`, a port write). -/
def Device.enter_sleeping (d : Device) : Device :=
  { d with
    tick_rate := TickRate.sleeping
    state := State.Sleeping 0 BlinkingDot.new
    display := d.display.force_output 0 0 }

/-- `Device::test_pot`.  The outer `Option` is panic-freedom (`detect_zone`
can panic on a not-found position); the inner `Option` is the source's
return value (`none` = keep the current setting). -/
def test_pot (pos : Agg) (current : Option Zone) (scale : List Zone) :
    Option (Option Zone) :=
  match pos.avg_full with
  | none => some none
  | some avg =>
      match current with
      | some s => some (detect_zone_change avg 10 s scale)
      | none =>
          match detect_zone avg scale with
          | some z => some (some z)
          | none => none

/-- `Device::render_settings`: the four layout cases; the source's
`_ => panic!()` arm is `none`. -/
def render_settings (disp : Display) (quantity quality : ℕ) : Option Display :=
  match encode_u8_into [0, 0] quantity, encode_u8_into [0, 0] quality with
  | some (qb, 1), some (lb, 1) =>
      some { disp with buffer := [0, qb.getD 0 0, symDELTA, lb.getD 0 0] }
  | some (qb, 2), some (lb, 1) =>
      some { disp with buffer := [qb.getD 0 0, qb.getD 1 0, symDELTA, lb.getD 0 0] }
  | some (qb, 1), some (lb, 2) =>
      some { disp with buffer := [qb.getD 0 0, symDELTA, lb.getD 0 0, lb.getD 1 0] }
  | some (qb, 2), some (lb, 2) =>
      some { disp with
             buffer := [qb.getD 0 0, qb.getD 1 0 ||| segPOINT, lb.getD 0 0, lb.getD 1 0] }
  | _, _ => none

/-- `Device::test_pots`: update either setting from its knob average, and
re-render the settings display when one changed and both are known. -/
def Device.test_pots (d : Device) : Option Device :=
  match test_pot d.pot_quantity d.quantity QUANTITY with
  | none => none
  | some newQuantity =>
      let render1 := newQuantity.isSome
      let d1 :=
        match newQuantity with
        | some z => { d with quantity := some z }
        | none => d
      match test_pot d1.pot_quality d1.quality QUALITY with
      | none => none
      | some newQuality =>
          let render := render1 || newQuality.isSome
          let d2 :=
            match newQuality with
            | some z => { d1 with quality := some z }
            | none => d1
          if render then
            match d2.quantity, d2.quality with
            | some qz, some lz =>
                let d3 := d2.enter_displaying
                match render_settings d3.display qz.value lz.value with
                | some disp => some { d3 with display := disp }
                | none => none
            | _, _ => some d2
          else some d2

/-- `Device::test_acceleration`: the per-pass motion evaluation driving the
Displaying/Rolling/Sleeping transitions.  `u8`/`u16` counter increments are
modelled with their wrapping (`% 256` / `% 65536`) semantics. -/
def Device.test_acceleration (d : Device) : Option Device :=
  match d.acc_l2.x.amplitude_full, d.acc_l2.y.amplitude_full, d.acc_l2.z.amplitude_full with
  | some ax, some ay, some az =>
      match d.state with
      | State.Displaying disturbed_ticks idle_ticks =>
          if acc_has_been_balanced ax ay az then
            let idle' := (idle_ticks + 1) % 65536
            let d' := { d with state := State.Displaying 0 idle' }
            if idle' > TICKS_TO_SLEEP then some d'.enter_sleeping else some d'
          else
            let disturbed' := (disturbed_ticks + 1) % 256
            let d' := { d with state := State.Displaying disturbed' 0 }
            if disturbed' > TICKS_TO_DISTURB then
              match d.quantity, d.quality with
              | some qz, some lz => some (d'.enter_rolling qz.value lz.value)
              | _, _ => some d'
            else some d'
      | State.Rolling params quantity results balanced_ticks animation =>
          if acc_has_been_disturbed ax ay az then
            some { d with state := State.Rolling params quantity results 0 animation }
          else
            let balanced' := (balanced_ticks + 1) % 256
            let d' := { d with state := State.Rolling params quantity results balanced' animation }
            if balanced' ≥ TICKS_TO_BALANCE then
              match results.sum_of_first quantity with
              | some sum =>
                  match d'.display.set_number sum with
                  | some disp => some ({ d' with display := disp }).enter_displaying
                  | none => none
              | none => some d'
            else some d'
      | State.Sleeping disturbed_ticks animation =>
          if acc_has_been_balanced ax ay az then
            some { d with state := State.Sleeping 0 animation }
          else
            let disturbed' := (disturbed_ticks + 1) % 256
            let d' := { d with state := State.Sleeping disturbed' animation }
            if disturbed' > TICKS_TO_WAKE then
              match d.quantity, d.quality with
              | some qz, some lz => some (d'.enter_rolling qz.value lz.value)
              | _, _ => some d'
            else some d'
  | _, _, _ => some d

/-- `Device::adc_start`: a second measurement started while one is in
flight is the source's `panic!()` (`none`); the mux/ADC register writes are
hardware effects. -/
def Device.adc_start (d : Device) (m : Measurement) : Option Device :=
  if d.adc_measuring.isSome then none
  else some { d with adc_measuring := some m }

/-- `Device::timer_interrupt`: per-tick animation step, the Rolling-state
random draw (`self.entropy.0 as u8` = `entropy % 256`, read without
modifying the pool), display refresh outside Sleeping, and the start of a
new ADC sweep.  `rnd + 1` cannot wrap: `rnd < bound ≤ 255`. -/
def Device.timer_interrupt (d : Device) : Option Device :=
  let d1 :=
    match d.state with
    | State.Rolling params quantity results balanced_ticks spinner =>
        let s := spinner.advance d.display.buffer
        let results' :=
          match generate params (d.entropy % 256) with
          | some rnd => results.put (rnd + 1)
          | none => results
        { d with
          display := { d.display with buffer := s.2 }
          state := State.Rolling params quantity results' balanced_ticks s.1 }
    | State.Sleeping disturbed_ticks animation =>
        let a := animation.advance d.display
        { d with display := a.2, state := State.Sleeping disturbed_ticks a.1 }
    | _ => d
  let d2 :=
    match d1.state with
    | State.Sleeping _ _ => d1
    | _ => { d1 with display := d1.display.refresh }
  d2.adc_start Measurement.PotQuantity

/-- `Device::adc_ready`: accelerometer samples feed the entropy pool
(wrapping `u16` addition); each channel's sample feeds its aggregator and
starts the next stage; after `AccZ` the ADC is disabled (hardware) and the
settings- and motion-evaluation passes run. -/
def Device.adc_ready (d : Device) (m : Measurement) (result : ℕ) : Option Device :=
  let d0 :=
    if m.is_acc then { d with entropy := (d.entropy + result) % 65536 } else d
  match m with
  | Measurement.PotQuantity =>
      ({ d0 with pot_quantity := d0.pot_quantity.put result }).adc_start Measurement.PotQuality
  | Measurement.PotQuality =>
      ({ d0 with pot_quality := d0.pot_quality.put result }).adc_start Measurement.AccX
  | Measurement.AccX =>
      let l1 := d0.acc_l1.x.put result
      let l2 :=
        match l1.avg_full with
        | some v => d0.acc_l2.x.put v
        | none => d0.acc_l2.x
      ({ d0 with
         acc_l1 := { d0.acc_l1 with x := l1 }
         acc_l2 := { d0.acc_l2 with x := l2 } }).adc_start Measurement.AccY
  | Measurement.AccY =>
      let l1 := d0.acc_l1.y.put result
      let l2 :=
        match l1.avg_full with
        | some v => d0.acc_l2.y.put v
        | none => d0.acc_l2.y
      ({ d0 with
         acc_l1 := { d0.acc_l1 with y := l1 }
         acc_l2 := { d0.acc_l2 with y := l2 } }).adc_start Measurement.AccZ
  | Measurement.AccZ =>
      let l1 := d0.acc_l1.z.put result
      let l2 :=
        match l1.avg_full with
        | some v => d0.acc_l2.z.put v
        | none => d0.acc_l2.z
      let d1 :=
        { d0 with
          acc_l1 := { d0.acc_l1 with z := l1 }
          acc_l2 := { d0.acc_l2 with z := l2 } }
      match d1.test_pots with
      | none => none
      | some d2 => d2.test_acceleration

/-- `Device::adc_interrupt`: `adc_measuring.take().map(...)` — a completed
conversion with no measurement in flight is ignored. -/
def Device.adc_interrupt (d : Device) (result : ℕ) : Option Device :=
  match d.adc_measuring with
  | none => some d
  | some m => ({ d with adc_measuring := none }).adc_ready m result

/-! ## Specification helpers and concrete devices for the claims -/

/-- One accelerometer axis of the sampling pipeline, with an instrumentation
counter for the number of puts into the level-2 aggregator. -/
structure AccAxis where
  l1 : Agg
  l2 : Agg
  l2_puts : ℕ
deriving DecidableEq

/-- A fresh axis (both levels `Agg::new` with `AGG_SIZE = 16`). -/
def AccAxis.new : AccAxis := ⟨Agg.new 16, Agg.new 16, 0⟩

/-- One raw sample delivered to one axis, exactly as in `Device::adc_ready`
(`main.rs` 489-503): put into level 1, then push `l1.avg_full` into level 2
whenever it is available. -/
def accStep (st : AccAxis) (sample : ℕ) : AccAxis :=
  let l1 := st.l1.put sample
  match l1.avg_full with
  | some a => ⟨l1, st.l2.put a, st.l2_puts + 1⟩
  | none => ⟨l1, st.l2, st.l2_puts⟩

/-- Run a whole sample sequence through one axis from boot. -/
def accRun (samples : List ℕ) : AccAxis := samples.foldl accStep AccAxis.new

/-- How many slots of the Rolling-state results ring are filled (and `none`
outside the Rolling state); instrumentation for claim C7. -/
def rollingResultsFilled (d : Device) : Option ℕ :=
  match d.state with
  | State.Rolling _ _ results _ _ => some (results.data.countP Option.isSome)
  | _ => none

/-- A full aggregator whose first slot holds `hi` and the rest `lo`
(amplitude `hi - lo`); used to build concrete devices. -/
def aggFull16 (lo hi : ℕ) : Agg := ⟨some hi :: List.replicate 15 (some lo), 0⟩

/-- Concrete device in the Rolling state with a non-zero entropy pool
and a mask sampler (quality 4), used against claim C7. -/
def devRolling : Device :=
  { Device.new with
    state := State.Rolling (params_for 4) 3 (Agg.new 20) 0 Spinner.new
    quantity := some (scaleZone QUANTITY 10)
    quality := some (scaleZone QUALITY 5)
    entropy := 12345 }

/-- The device state after one timer tick on `devRolling`. -/
def devRollingAfter : Device := (Device.timer_interrupt devRolling).getD devRolling

/-- Concrete device used to witness the `adc_ready` entropy update. -/
def devIdle : Device := { Device.new with entropy := 500 }

/-- `devIdle` after an `AccX` conversion result of 100. -/
def devIdleAfterAcc : Device :=
  (Device.adc_ready devIdle Measurement.AccX 100).getD devIdle

/-- Concrete device in the Sleeping state, disturbed for 20 passes, with
both settings known and all three level-2 amplitudes at 100; used to
witness claim C9. -/
def devSleeping : Device :=
  { Device.new with
    state := State.Sleeping 20 BlinkingDot.new
    quantity := some (scaleZone QUANTITY 10)
    quality := some (scaleZone QUALITY 5)
    acc_l2 := ⟨aggFull16 0 100, aggFull16 0 100, aggFull16 0 100⟩
    tick_rate := TickRate.sleeping }

/-! ## Helper lemmas -/

/-- Bridge from a `List.range`-bounded boolean check to its `∀` form. -/
theorem all_range_bridge {n : ℕ} {f : ℕ → Bool}
    (h : (List.range n).all f = true) : ∀ p, p < n → f p = true := by
  intro p hp
  exact List.all_eq_true.mp h p (List.mem_range.mpr hp)

/-- Among `0, …, b*q - 1` exactly `q` numbers have residue `v` mod `b`. -/
theorem card_filter_mod (b q v : ℕ) (hb : 0 < b) (hv : v < b) :
    ((Finset.range (b * q)).filter (fun e => e % b = v)).card = q := by
  have himg : (Finset.range (b * q)).filter (fun e => e % b = v)
      = (Finset.range q).image (fun k => b * k + v) := by
    ext e
    simp only [Finset.mem_filter, Finset.mem_range, Finset.mem_image]
    constructor
    · rintro ⟨he, hm⟩
      refine ⟨e / b, Nat.div_lt_of_lt_mul ?_, ?_⟩
      · exact he
      · rw [← hm]; exact Nat.div_add_mod e b
    · rintro ⟨k, hk, rfl⟩
      refine ⟨?_, ?_⟩
      · calc b * k + v < b * k + b := by omega
          _ = b * (k + 1) := by ring
          _ ≤ b * q := Nat.mul_le_mul_left b hk
      · rw [Nat.mul_add_mod]; exact Nat.mod_eq_of_lt hv
  have hinj : Function.Injective (fun k => b * k + v) := by
    intro k1 k2 h
    simp only at h
    exact Nat.eq_of_mul_eq_mul_left hb (by omega)
  rw [himg, Finset.card_image_of_injective _ hinj, Finset.card_range]

/-- Among `0, …, b*q` (one more number) residue `0` occurs `q + 1` times and
every other residue `v < b` occurs `q` times. -/
theorem card_filter_mod_succ (b q v : ℕ) (hb : 0 < b) (hv : v < b) :
    ((Finset.range (b * q + 1)).filter (fun e => e % b = v)).card
      = q + if v = 0 then 1 else 0 := by
  rw [Finset.range_succ, Finset.filter_insert]
  by_cases hv0 : v = 0
  · subst hv0
    rw [if_pos (Nat.mul_mod_right b q)]
    rw [Finset.card_insert_of_not_mem (by simp [Finset.mem_filter, Finset.mem_range])]
    rw [card_filter_mod b q 0 hb hv]
    simp
  · rw [if_neg (by rw [Nat.mul_mod_right]; omega)]
    rw [card_filter_mod b q v hb hv]
    simp [hv0]

set_option maxRecDepth 10000 in
/-- The source's power-of-two test `(b - 1) & b == 0` only accepts powers of
two on the `u8` range. -/
theorem pow2_of_land_eq_zero (b : ℕ) (h1 : 1 ≤ b) (h2 : b ≤ 255)
    (h : (b - 1) &&& b = 0) : ∃ k, b = 2 ^ k := by
  have hfin : ∀ c ∈ Finset.range 256, 1 ≤ c → (c - 1) &&& c = 0 →
      (c = 1 ∨ c = 2 ∨ c = 4 ∨ c = 8 ∨ c = 16 ∨ c = 32 ∨ c = 64 ∨ c = 128) := by
    decide
  have henum := hfin b (Finset.mem_range.mpr (by omega)) h1 h
  rcases henum with rfl | rfl | rfl | rfl | rfl | rfl | rfl | rfl
  exacts [⟨0, rfl⟩, ⟨1, rfl⟩, ⟨2, rfl⟩, ⟨3, rfl⟩, ⟨4, rfl⟩, ⟨5, rfl⟩, ⟨6, rfl⟩, ⟨7, rfl⟩]

set_option maxRecDepth 10000 in
/-- Every `u8` power of two passes the source's bit test and divides 256. -/
theorem pow2_land_dvd : ∀ k ∈ Finset.range 8,
    ((2 ^ k - 1) &&& 2 ^ k = 0 ∧ 2 ^ k ∣ 256) := by decide

set_option maxRecDepth 10000 in
/-- Every divisor of 256 on the `u8` range is a power of two. -/
theorem dvd256_enum : ∀ c ∈ Finset.range 256, c ∣ 256 →
    (c = 1 ∨ c = 2 ∨ c = 4 ∨ c = 8 ∨ c = 16 ∨ c = 32 ∨ c = 64 ∨ c = 128) := by
  decide

/-! ## Claim C1 -/

set_option maxRecDepth 10000 in
/-- C1, counterexample: at the non-power-of-two bound `b = 6` the sampler
accepts 253 entropy bytes, not `256 - 256 % 6 = 252` as claimed, and the
draw values are not equidistributed: value 0 is produced by 43 entropy
bytes while value 1 is produced by 42. -/
theorem C1_counterexample :
    acceptedCount 6 = 253 ∧ 256 - 256 % 6 = 252 ∧
    acceptedCount 6 ≠ 256 - 256 % 6 ∧
    valueCount 6 0 = 43 ∧ valueCount 6 1 = 42 ∧
    valueCount 6 0 ≠ valueCount 6 1 := by
  decide

/-- C1, amended: for every non-power-of-two bound `b` in `[2, 255]` the
rejection sampler accepts exactly `257 - 256 % b` of the 256 entropy bytes
(one more than the claimed `256 - 256 % b`), every accepted draw lies in
`[0, b)`, and the distribution is almost — but not exactly — uniform:
value 0 is produced by `256 / b + 1` entropy bytes and every other value of
`[0, b)` by `256 / b`. -/
theorem C1_amended : ∀ b : ℕ, 2 ≤ b → b ≤ 255 → (¬ ∃ k : ℕ, b = 2 ^ k) →
    acceptedCount b = 257 - 256 % b ∧
    (∀ e v : ℕ, generate (params_for b) e = some v → v < b) ∧
    valueCount b 0 = 256 / b + 1 ∧
    (∀ v : ℕ, 1 ≤ v → v < b → valueCount b v = 256 / b) := by
  intro b hb2 hb255 hnp
  have hb0 : 0 < b := by omega
  have hland : (b - 1) &&& b ≠ 0 := fun h =>
    hnp (pow2_of_land_eq_zero b (by omega) hb255 h)
  have hparams : params_for b = ⟨b, Method.RemainderBelowLimit (255 - 255 % b)⟩ := by
    simp [params_for, hland]
  have hndvd : ¬ b ∣ 256 := by
    intro hdvd
    have henum := dvd256_enum b (Finset.mem_range.mpr (by omega)) hdvd
    apply hnp
    rcases henum with rfl | rfl | rfl | rfl | rfl | rfl | rfl | rfl
    exacts [⟨0, rfl⟩, ⟨1, rfl⟩, ⟨2, rfl⟩, ⟨3, rfl⟩, ⟨4, rfl⟩, ⟨5, rfl⟩, ⟨6, rfl⟩, ⟨7, rfl⟩]
  have h255lt : 255 % b < b := Nat.mod_lt _ hb0
  have hmod : 256 % b = 255 % b + 1 := by
    have hstep : 256 % b = (255 % b + 1) % b := by
      conv_lhs => rw [show (256 : ℕ) = 255 + 1 from rfl]
      rw [Nat.add_mod]
      congr 1
      rw [Nat.mod_eq_of_lt (show (1 : ℕ) < b by omega)]
    by_cases hlt : 255 % b + 1 < b
    · rw [hstep, Nat.mod_eq_of_lt hlt]
    · exfalso
      apply hndvd
      have hdm := Nat.div_add_mod 255 b
      refine ⟨255 / b + 1, ?_⟩
      have hdist : b * (255 / b + 1) = b * (255 / b) + b := by ring
      omega
  have hq : 255 / b = 256 / b := by
    have h1 := Nat.div_add_mod 255 b
    have h2 := Nat.div_add_mod 256 b
    exact Nat.eq_of_mul_eq_mul_left hb0 (by omega)
  have hlim_eq : 255 - 255 % b = b * (255 / b) := by
    have := Nat.div_add_mod 255 b
    omega
  refine ⟨?_, ?_, ?_, ?_⟩
  · unfold acceptedCount
    have hset : (Finset.range 256).filter (fun e => (generate (params_for b) e).isSome)
        = Finset.range (255 - 255 % b + 1) := by
      ext e
      simp only [Finset.mem_filter, Finset.mem_range, hparams, generate]
      by_cases he : e ≤ 255 - 255 % b <;> simp [he] <;> omega
    rw [hset, Finset.card_range]
    omega
  · intro e v hgen
    rw [hparams] at hgen
    simp only [generate] at hgen
    by_cases he : e ≤ 255 - 255 % b
    · simp [he] at hgen
      exact hgen ▸ Nat.mod_lt e hb0
    · simp [he] at hgen
  · have hset : (Finset.range 256).filter (fun e => generate (params_for b) e = some 0)
        = (Finset.range (b * (255 / b) + 1)).filter (fun e => e % b = 0) := by
      ext e
      simp only [Finset.mem_filter, Finset.mem_range, hparams, generate]
      by_cases he : e ≤ 255 - 255 % b
      · simp only [if_pos he, Option.some.injEq]
        constructor
        · rintro ⟨_, h2⟩
          exact ⟨by omega, h2⟩
        · rintro ⟨_, h2⟩
          exact ⟨by omega, h2⟩
      · simp only [if_neg he]
        constructor
        · rintro ⟨_, h2⟩
          exact absurd h2 (by simp)
        · rintro ⟨h1, -⟩
          exact absurd h1 (by omega)
    unfold valueCount
    rw [hset, card_filter_mod_succ b (255 / b) 0 hb0 hb0, hq]
    simp
  · intro v hv1 hvb
    have hset : (Finset.range 256).filter (fun e => generate (params_for b) e = some v)
        = (Finset.range (b * (255 / b) + 1)).filter (fun e => e % b = v) := by
      ext e
      simp only [Finset.mem_filter, Finset.mem_range, hparams, generate]
      by_cases he : e ≤ 255 - 255 % b
      · simp only [if_pos he, Option.some.injEq]
        constructor
        · rintro ⟨_, h2⟩
          exact ⟨by omega, h2⟩
        · rintro ⟨_, h2⟩
          exact ⟨by omega, h2⟩
      · simp only [if_neg he]
        constructor
        · rintro ⟨_, h2⟩
          exact absurd h2 (by simp)
        · rintro ⟨h1, -⟩
          exact absurd h1 (by omega)
    unfold valueCount
    rw [hset, card_filter_mod_succ b (255 / b) v hb0 hvb, hq, if_neg (by omega)]
    omega

set_option maxRecDepth 10000 in
/-- C1, witness: the amended statement applied to the concrete
non-power-of-two bound 6. -/
theorem C1_witness :
    acceptedCount 6 = 257 - 256 % 6 ∧
    valueCount 6 0 = 256 / 6 + 1 ∧ valueCount 6 1 = 256 / 6 := by
  have h := C1_amended 6 (by decide) (by decide)
    (by
      rintro ⟨k, hk⟩
      rcases Nat.lt_or_ge k 3 with hsm | hlg
      · interval_cases k <;> omega
      · have : (2 : ℕ) ^ 3 ≤ 2 ^ k := Nat.pow_le_pow_right (by norm_num) hlg
        omega)
  exact ⟨h.1, h.2.2.1, h.2.2.2 1 (by norm_num) (by norm_num)⟩

/-! ## Claim C8 -/

/-- C8: for every power-of-two bound `b ≤ 255` (the source's mask method)
every entropy byte yields a defined draw in `[0, b)`, and each value of
`[0, b)` is produced by exactly `256 / b` of the 256 entropy bytes. -/
theorem C8_mask_uniform : ∀ b k : ℕ, b = 2 ^ k → b ≤ 255 →
    (∀ e : ℕ, e < 256 → ∃ r : ℕ, generate (params_for b) e = some r ∧ r < b) ∧
    (∀ v : ℕ, v < b → valueCount b v = 256 / b) := by
  intro b k hbk hb255
  have hb0 : 0 < b := by
    rw [hbk]; exact Nat.pos_pow_of_pos k (by norm_num)
  have hk8 : k < 8 := by
    by_contra hk
    push_neg at hk
    have : (2 : ℕ) ^ 8 ≤ 2 ^ k := Nat.pow_le_pow_right (by norm_num) hk
    omega
  have hfacts := pow2_land_dvd k (Finset.mem_range.mpr hk8)
  have hland : (b - 1) &&& b = 0 := by rw [hbk]; exact hfacts.1
  have hdvd : b ∣ 256 := by rw [hbk]; exact hfacts.2
  have hparams : params_for b = ⟨b, Method.MaskSquareOfTwo⟩ := by
    simp [params_for, hland]
  constructor
  · intro e _
    refine ⟨e % b, ?_, Nat.mod_lt _ hb0⟩
    rw [hparams]
    simp [generate]
  · intro v hv
    have h256 : b * (256 / b) = 256 := Nat.mul_div_cancel' hdvd
    unfold valueCount
    have hset : (Finset.range 256).filter (fun e => generate (params_for b) e = some v)
        = (Finset.range (b * (256 / b))).filter (fun e => e % b = v) := by
      rw [h256]
      ext e
      simp [hparams, generate, Finset.mem_filter]
    rw [hset, card_filter_mod b (256 / b) v hb0 hv]

/-- C8, witness: the statement applied to the concrete power-of-two bound 8
and entropy byte 5. -/
theorem C8_witness :
    (∃ r : ℕ, generate (params_for 8) 5 = some r ∧ r < 8) ∧
    valueCount 8 3 = 256 / 8 := by
  have h := C8_mask_uniform 8 3 rfl (by norm_num)
  exact ⟨h.1 5 (by norm_num), h.2 3 (by norm_num)⟩

/-! ## Ring-aggregator invariants (claims C2, C3, C10) -/

/-- `getD` after `set`: the written slot reads back when in range. -/
theorem getD_set {α : Type} (l : List α) (m i : ℕ) (a d : α) :
    (l.set m a).getD i d = if m = i ∧ m < l.length then a else l.getD i d := by
  induction l generalizing m i with
  | nil => simp
  | cons x xs ih =>
    cases m with
    | zero =>
        cases i with
        | zero => simp
        | succ j => simp
    | succ m' =>
        cases i with
        | zero => simp
        | succ j =>
            rw [List.set_cons_succ, List.getD_cons_succ, List.getD_cons_succ, ih]
            simp only [List.length_cons, Nat.add_right_cancel_iff,
              Nat.add_lt_add_iff_right]

/-- Feeding one more sample is a single `put`. -/
theorem putSeq_append_singleton (a : Agg) (vs : List ℕ) (v : ℕ) :
    a.putSeq (vs ++ [v]) = (a.putSeq vs).put v := by
  simp [Agg.putSeq]

/-- The buffer size is invariant under any put sequence. -/
theorem putSeq_length (N : ℕ) (vs : List ℕ) :
    ((Agg.new N).putSeq vs).data.length = N := by
  induction vs using List.reverseRecOn with
  | nil => simp [Agg.putSeq, Agg.new]
  | append_singleton vs v ih =>
      rw [putSeq_append_singleton, Agg.put]
      simp [ih]

/-- The write cursor after `k` puts sits at `k % N`. -/
theorem putSeq_next (N : ℕ) (vs : List ℕ) :
    ((Agg.new N).putSeq vs).next_put_at = vs.length % N := by
  induction vs using List.reverseRecOn with
  | nil => simp [Agg.putSeq, Agg.new]
  | append_singleton vs v ih =>
      rw [putSeq_append_singleton, Agg.put]
      simp only [putSeq_length, ih, List.length_append, List.length_cons,
        List.length_nil]
      conv_rhs => rw [Nat.add_mod]
      conv_lhs => rw [Nat.add_mod]
      rw [Nat.mod_mod_of_dvd _ (dvd_refl N)]

/-- Slot `i < N` has been written exactly when at least `i + 1` puts have
occurred since construction. -/
theorem putSeq_filled (N : ℕ) (vs : List ℕ) :
    ∀ i, i < N →
      ((((Agg.new N).putSeq vs).data.getD i none).isSome = decide (i < vs.length)) := by
  induction vs using List.reverseRecOn with
  | nil =>
      intro i hi
      have hrep : (List.replicate N (none : Option ℕ)).getD i none = none := by
        rw [List.getD_eq_getElem?_getD, List.getElem?_replicate]
        split <;> rfl
      simp [Agg.putSeq, Agg.new, hrep]
  | append_singleton vs v ih =>
      intro i hi
      rw [putSeq_append_singleton, Agg.put]
      simp only
      rw [getD_set, putSeq_next, putSeq_length]
      by_cases hc : vs.length % N = i ∧ vs.length % N < N
      · rw [if_pos hc]
        have hle : i ≤ vs.length := hc.1 ▸ Nat.mod_le vs.length N
        simp [List.length_append]
        omega
      · rw [if_neg hc, ih i hi]
        have hN : 0 < N := by omega
        have hne : vs.length % N ≠ i := fun h => hc ⟨h, Nat.mod_lt _ hN⟩
        have hineq : i ≠ vs.length := by
          intro h
          apply hne
          rw [h, Nat.mod_eq_of_lt (by omega)]
        simp only [List.length_append, List.length_cons, List.length_nil,
          decide_eq_decide]
        omega

/-- The summation loop fails exactly on a never-written slot. -/
theorem sumAux_none_iff (acc : ℕ) (l : List (Option ℕ)) :
    sumAux acc l = none ↔ none ∈ l := by
  induction l generalizing acc with
  | nil => simp [sumAux]
  | cons o rest ih =>
      cases o with
      | none => simp [sumAux]
      | some x => simp [sumAux, ih]

/-- The summation loop computes the arithmetic sum of fully-written slots. -/
theorem sumAux_eq (acc : ℕ) (l : List (Option ℕ)) (h : none ∉ l) :
    sumAux acc l = some (acc + sumValues l) := by
  induction l generalizing acc with
  | nil => simp [sumAux, sumValues]
  | cons o rest ih =>
      cases o with
      | none => simp at h
      | some x =>
          simp only [List.mem_cons, not_or] at h
          rw [sumAux, ih _ h.2]
          simp [sumValues]
          omega

/-- A never-written slot appears among the first `n ≤ N` slots exactly when
fewer than `n` puts have occurred. -/
theorem none_mem_take_iff (N : ℕ) (vs : List ℕ) (n : ℕ) (hn : n ≤ N) :
    none ∈ (((Agg.new N).putSeq vs).data.take n) ↔ vs.length < n := by
  have hlen := putSeq_length N vs
  have hfill := putSeq_filled N vs
  constructor
  · intro hmem
    rcases List.mem_iff_getElem?.mp hmem with ⟨i, hi⟩
    have hilt : i < n := by
      by_contra hge
      push_neg at hge
      have : (((Agg.new N).putSeq vs).data.take n)[i]? = none := by
        apply List.getElem?_eq_none
        calc (((Agg.new N).putSeq vs).data.take n).length
            ≤ n := by simp [List.length_take]
          _ ≤ i := hge
      rw [this] at hi
      exact Option.noConfusion hi
    rw [List.getElem?_take_of_lt hilt] at hi
    have hiN : i < N := by omega
    have hchar := hfill i hiN
    rw [List.getD_eq_getElem?_getD, hi] at hchar
    simp at hchar
    omega
  · intro hlt
    have hvN : vs.length < N := by omega
    have hchar := hfill vs.length hvN
    rcases hslot : (((Agg.new N).putSeq vs).data)[vs.length]? with _ | o
    · exfalso
      rw [List.getElem?_eq_none_iff, hlen] at hslot
      omega
    · rw [List.getD_eq_getElem?_getD, hslot] at hchar
      simp at hchar
      subst hchar
      exact List.mem_iff_getElem?.mpr ⟨vs.length, by rw [List.getElem?_take_of_lt hlt, hslot]⟩

/-! ## Claim C3 -/

/-- C3: for every capacity `N` and every `n ≤ N`, `sum_of_first n` on an
aggregator fed any sample sequence since construction is unavailable exactly
when fewer than `n` puts have occurred, and otherwise equals the arithmetic
sum of the values currently held in buffer slots `0..n`. -/
theorem C3_sum_of_first : ∀ (N : ℕ) (vs : List ℕ) (n : ℕ), n ≤ N →
    ((((Agg.new N).putSeq vs).sum_of_first n = none) ↔ vs.length < n) ∧
    (n ≤ vs.length →
      ((Agg.new N).putSeq vs).sum_of_first n
        = some (sumValues (((Agg.new N).putSeq vs).data.take n))) := by
  intro N vs n hn
  have hlen := putSeq_length N vs
  have hmem := none_mem_take_iff N vs n hn
  have hngt : ¬ n > ((Agg.new N).putSeq vs).data.length := by omega
  constructor
  · rw [Agg.sum_of_first, if_neg hngt, sumAux_none_iff]
    exact hmem
  · intro hnv
    rw [Agg.sum_of_first, if_neg hngt, sumAux_eq 0 _ (by rw [hmem]; omega)]
    simp

/-- C3, witness: a capacity-16 aggregator fed `[1, 2, 3]`:
`sum_of_first 3` is the arithmetic sum 6, `sum_of_first 4` is unavailable. -/
theorem C3_witness :
    ((Agg.new 16).putSeq [1, 2, 3]).sum_of_first 3 = some 6 ∧
    ((Agg.new 16).putSeq [1, 2, 3]).sum_of_first 4 = none := by
  have h3 := C3_sum_of_first 16 [1, 2, 3] 3 (by norm_num)
  have h4 := C3_sum_of_first 16 [1, 2, 3] 4 (by norm_num)
  constructor
  · rw [h3.2 (by norm_num)]
    decide
  · exact h4.1.mpr (by norm_num)

/-! ## Claim C2 -/

/-- `avg_full` on a freshly constructed aggregator of positive capacity is
unavailable exactly until `N` puts have occurred (and stays available
forever after, since `put` never erases a slot). -/
theorem putSeq_avg_full_none_iff (N : ℕ) (vs : List ℕ) :
    (((Agg.new N).putSeq vs).avg_full = none) ↔ vs.length < N := by
  have hlen := putSeq_length N vs
  rw [Agg.avg_full, Agg.avg_of_first, Option.map_eq_none', hlen]
  have hngt : ¬ N > ((Agg.new N).putSeq vs).data.length := by omega
  rw [Agg.sum_of_first, if_neg hngt, sumAux_none_iff]
  exact none_mem_take_iff N vs N le_rfl

/-- The level-1 aggregator of an axis after a sample run is exactly the
sample sequence fed into a fresh size-16 aggregator. -/
theorem accRun_l1 (samples : List ℕ) :
    (accRun samples).l1 = (Agg.new 16).putSeq samples := by
  induction samples using List.reverseRecOn with
  | nil => rfl
  | append_singleton vs v ih =>
      rw [show accRun (vs ++ [v]) = accStep (accRun vs) v by simp [accRun],
        putSeq_append_singleton, ← ih, accStep]
      cases h : ((accRun vs).l1.put v).avg_full <;> simp [h]

set_option maxRecDepth 10000 in
/-- C2, counterexample: after 17 raw samples on one axis the level-2
aggregator has received 2 puts, not `⌊17/16⌋ = 1` as claimed — once level 1
is full it stays full, so every further sample pushes a new average. -/
theorem C2_counterexample :
    (accRun (List.replicate 17 0)).l2_puts = 2 ∧ (17 : ℕ) / 16 = 1 ∧
    (accRun (List.replicate 17 0)).l2_puts ≠ 17 / 16 := by
  decide

/-- C2, amended: after the `k`-th raw sample delivered to an axis since
boot, the total number of puts into that axis's level-2 aggregator equals
`k - 15` (truncated at 0): one put on the 16th sample and on every sample
thereafter, since level 1 becomes full after 16 puts and never ceases to be
full. -/
theorem C2_amended : ∀ samples : List ℕ,
    (accRun samples).l2_puts = samples.length - 15 := by
  intro samples
  induction samples using List.reverseRecOn with
  | nil => rfl
  | append_singleton vs v ih =>
      rw [show accRun (vs ++ [v]) = accStep (accRun vs) v by simp [accRun], accStep]
      have hfull : (((accRun vs).l1.put v).avg_full = none) ↔ vs.length + 1 < 16 := by
        rw [accRun_l1, ← putSeq_append_singleton, putSeq_avg_full_none_iff]
        simp
      cases h : ((accRun vs).l1.put v).avg_full with
      | none =>
          have hlt := hfull.mp h
          simp only [ih, List.length_append, List.length_cons, List.length_nil]
          omega
      | some a =>
          have hge : ¬ vs.length + 1 < 16 := by
            intro hcon
            rw [← hfull] at hcon
            rw [h] at hcon
            exact Option.noConfusion hcon
          simp only [ih, List.length_append, List.length_cons, List.length_nil]
          omega

/-! ## Claim C4 -/

set_option maxRecDepth 100000 in
/-- C4, counterexample: on the QUANTITY scale with current zone
`[512, 562]` (value 10) and dead area 10, the position `s - d - 1 = 501`
does make `detect_zone_change` return a zone — but it is the current zone
itself, not a different one: the ascending scan stops at the first zone
with `position < end - dead_area`, which is the current zone (the previous
zone ends at 511 and `501 < 511 - 10` fails). -/
theorem C4_counterexample :
    (scaleZone QUANTITY 10).start = 512 ∧
    detect_zone_change (512 - 10 - 1) 10 (scaleZone QUANTITY 10) QUANTITY
      = some (scaleZone QUANTITY 10) := by
  decide

set_option maxRecDepth 100000 in
/-- C4, amended: on the QUANTITY and QUALITY scales, for a current zone
with `start > d` and a dead area `d` not exceeding the scale's smallest
zone end (so no `u16` underflow occurs in the scan), the position
`start - d - 1` returns `some` zone, but that zone is the current zone
itself rather than a different one. -/
theorem C4_amended : ∀ i d : ℕ,
    (i < 20 → d ≤ 52 → (scaleZone QUANTITY i).start > d →
      detect_zone_change ((scaleZone QUANTITY i).start - d - 1) d
        (scaleZone QUANTITY i) QUANTITY = some (scaleZone QUANTITY i)) ∧
    (i < 6 → d ≤ 169 → (scaleZone QUALITY i).start > d →
      detect_zone_change ((scaleZone QUALITY i).start - d - 1) d
        (scaleZone QUALITY i) QUALITY = some (scaleZone QUALITY i)) := by
  have hqty : (List.range 20).all (c4check QUANTITY 53) = true := by decide
  have hqly : (List.range 6).all (c4check QUALITY 170) = true := by decide
  intro i d
  constructor
  · intro hi hd hs
    have h1 := all_range_bridge hqty i hi
    have h2 := all_range_bridge (by rw [c4check] at h1; exact h1) d (by omega)
    rcases Bool.or_eq_true _ _ |>.mp h2 with hbad | hgood
    · exact absurd (of_decide_eq_true hbad) (by omega)
    · exact eq_of_beq hgood
  · intro hi hd hs
    have h1 := all_range_bridge hqly i hi
    have h2 := all_range_bridge (by rw [c4check] at h1; exact h1) d (by omega)
    rcases Bool.or_eq_true _ _ |>.mp h2 with hbad | hgood
    · exact absurd (of_decide_eq_true hbad) (by omega)
    · exact eq_of_beq hgood

/-- C4, witness: the amended statement at QUANTITY zone 5 (range
`[257, 307]`, value 15) with dead area 20: position 236 returns the
current zone itself. -/
theorem C4_witness :
    detect_zone_change ((scaleZone QUANTITY 5).start - 20 - 1) 20
      (scaleZone QUANTITY 5) QUANTITY = some (scaleZone QUANTITY 5) :=
  (C4_amended 5 20).1 (by norm_num) (by norm_num) (by decide)

/-! ## Claim C5 -/

set_option maxRecDepth 10000 in
/-- C5, counterexample: with dead area `d = 65535` and current zone
`[971, 1023]` (QUANTITY value 1), the position 1023 lies inside the claimed
dead band `[max(s-d,0), e+d] = [0, 66558]`, yet the `u16` addition
`end + dead_area` wraps to 1022, the `position > end + dead_area` branch
fires, and a zone is returned instead of "no change". -/
theorem C5_counterexample :
    (scaleZone QUANTITY 19).start - 65535 = 0 ∧
    (1023 : ℕ) ≤ (scaleZone QUANTITY 19).end_ + 65535 ∧
    detect_zone_change 1023 65535 (scaleZone QUANTITY 19) QUANTITY
      = some (scaleZone QUANTITY 19) := by
  decide

/-- C5, amended: for every zone list, every current zone `[s, e]`, every
dead area `d` with `e + d < 2^16` (no `u16` overflow), and every position
`p` with `max(s-d, 0) ≤ p ≤ e+d`, `detect_zone_change` reports no change. -/
theorem C5_dead_band : ∀ (zones : List Zone) (cur : Zone) (d p : ℕ),
    cur.end_ + d < 65536 → cur.start - d ≤ p → p ≤ cur.end_ + d →
    detect_zone_change p d cur zones = none := by
  intro zones cur d p hov hlo hhi
  rw [detect_zone_change]
  rw [if_neg (by omega)]
  rw [if_neg (by
    rw [wadd16, Nat.mod_eq_of_lt hov]
    omega)]

/-- C5, witness: the amended statement at QUANTITY zone 10 (`[512, 562]`),
dead area 10, position 502 (the lower edge of the dead band). -/
theorem C5_witness :
    detect_zone_change 502 10 (scaleZone QUANTITY 10) QUANTITY = none :=
  C5_dead_band QUANTITY (scaleZone QUANTITY 10) 10 502 (by decide) (by decide)
    (by decide)

/-! ## Claim C6 -/

set_option maxRecDepth 100000 in
/-- C6: for every position in `[0, 1023]`, `detect_zone` on the QUANTITY
scale and on the QUALITY scale returns a zone whose range contains the
position (the panic branch is unreachable), and exactly one zone of each
scale contains the position (full coverage, no overlaps). -/
theorem C6_detect_zone_total : ∀ p : ℕ, p ≤ 1023 →
    inReturnedZone p (detect_zone p QUANTITY) = true ∧
    QUANTITY.countP (fun z => z.start ≤ p && p ≤ z.end_) = 1 ∧
    inReturnedZone p (detect_zone p QUALITY) = true ∧
    QUALITY.countP (fun z => z.start ≤ p && p ≤ z.end_) = 1 := by
  have hall : (List.range 1024).all c6check = true := by decide
  intro p hp
  have h := all_range_bridge hall p (by omega)
  rw [c6check] at h
  simp only [Bool.and_eq_true, beq_iff_eq] at h
  exact ⟨h.1.1.1, h.1.1.2, h.1.2, h.2⟩

/-- C6, witness: position 512 maps to exactly one zone on each scale. -/
theorem C6_witness :
    inReturnedZone 512 (detect_zone 512 QUANTITY) = true ∧
    QUANTITY.countP (fun z => z.start ≤ 512 && 512 ≤ z.end_) = 1 := by
  have h := C6_detect_zone_total 512 (by norm_num)
  exact ⟨h.1, h.2.1⟩

/-! ## Claim C10 -/

/-- The encoder loop never takes the out-of-bounds `symbol::MAP` index as
long as the rendered number fits the divisor chain (`n < 10^(k+1)`): it
always succeeds, emitting at most one digit per divisor and preserving the
buffer size. -/
theorem encodeLoop_ok : ∀ (k : ℕ) (buf : List ℕ) (n size : ℕ), n < 10 ^ (k + 1) →
    ∃ b s, encodeLoop (decimalDivisors k) buf n size = some (b, s) ∧
      s ≤ size + (k + 1) ∧ b.length = buf.length := by
  intro k
  induction k with
  | zero =>
      intro buf n size hn
      simp only [decimalDivisors, encodeLoop]
      by_cases hsz : size < buf.length
      · rw [if_pos hsz]
        have hd : n / 1 < 10 := by omega
        by_cases hpos : size > 0 ∨ n / 1 > 0
        · rw [if_pos hpos, if_pos hd]
          exact ⟨_, size + 1, rfl, by omega, by simp⟩
        · rw [if_neg hpos]
          exact ⟨buf, size, rfl, by omega, rfl⟩
      · rw [if_neg hsz]
        exact ⟨buf, size, rfl, by omega, rfl⟩
  | succ k ih =>
      intro buf n size hn
      have hpow : (10 : ℕ) ^ (k + 1 + 1) = 10 * 10 ^ (k + 1) := by ring
      have hd : n / 10 ^ (k + 1) < 10 :=
        Nat.div_lt_of_lt_mul (by rw [Nat.mul_comm]; omega)
      have hmod : n % 10 ^ (k + 1) < 10 ^ (k + 1) :=
        Nat.mod_lt _ (Nat.pos_pow_of_pos _ (by norm_num))
      simp only [decimalDivisors, encodeLoop]
      by_cases hsz : size < buf.length
      · rw [if_pos hsz]
        by_cases hpos : size > 0 ∨ n / 10 ^ (k + 1) > 0
        · rw [if_pos hpos, if_pos hd]
          obtain ⟨b, s, heq, hs, hb⟩ :=
            ih (buf.set size (symMAP.getD (n / 10 ^ (k + 1)) 0)) (n % 10 ^ (k + 1))
              (size + 1) hmod
          exact ⟨b, s, heq, by omega, by rw [hb]; simp⟩
        · rw [if_neg hpos]
          obtain ⟨b, s, heq, hs, hb⟩ := ih buf (n % 10 ^ (k + 1)) size hmod
          exact ⟨b, s, heq, by omega, hb⟩
      · rw [if_neg hsz]
        exact ⟨buf, size, rfl, by omega, rfl⟩

/-- Every value in the buffer of an aggregator fed `vs` came from `vs`
(or the slot was never written). -/
theorem putSeq_data_mem (N : ℕ) (vs : List ℕ) :
    ∀ o ∈ ((Agg.new N).putSeq vs).data, o = none ∨ ∃ v ∈ vs, o = some v := by
  induction vs using List.reverseRecOn with
  | nil =>
      intro o ho
      exact Or.inl (List.eq_of_mem_replicate ho)
  | append_singleton vs v ih =>
      intro o ho
      rw [putSeq_append_singleton, Agg.put] at ho
      rcases List.mem_or_eq_of_mem_set ho with hold | rfl
      · rcases ih o hold with h | ⟨w, hw, h⟩
        · exact Or.inl h
        · exact Or.inr ⟨w, by simp [hw], h⟩
      · exact Or.inr ⟨v, by simp, rfl⟩

/-- An available `sum_of_first q` over samples all bounded by `c` is at
most `c * q`. -/
theorem sum_le_of_bounded (N : ℕ) (vs : List ℕ) (q c m : ℕ)
    (hb : ∀ v ∈ vs, v ≤ c)
    (hsum : ((Agg.new N).putSeq vs).sum_of_first q = some m) : m ≤ c * q := by
  rw [Agg.sum_of_first] at hsum
  by_cases hq : q > ((Agg.new N).putSeq vs).data.length
  · rw [if_pos hq] at hsum
    exact Option.noConfusion hsum
  · rw [if_neg hq] at hsum
    have hnomem : none ∉ (((Agg.new N).putSeq vs).data.take q) := by
      intro hmem
      rw [(sumAux_none_iff 0 _).mpr hmem] at hsum
      exact Option.noConfusion hsum
    rw [sumAux_eq 0 _ hnomem] at hsum
    have hm : m = sumValues (((Agg.new N).putSeq vs).data.take q) := by
      have := Option.some.injEq .. ▸ hsum
      omega
    have hbound : ∀ x ∈ (((Agg.new N).putSeq vs).data.take q).map (fun o => o.getD 0),
        x ≤ c := by
      intro x hx
      rcases List.mem_map.mp hx with ⟨o, ho, rfl⟩
      have ho' : o ∈ ((Agg.new N).putSeq vs).data := List.mem_of_mem_take ho
      rcases putSeq_data_mem N vs o ho' with rfl | ⟨w, hw, rfl⟩
      · simp
      · simpa using hb w hw
    have hlen : ((((Agg.new N).putSeq vs).data.take q).map (fun o => o.getD 0)).length ≤ q := by
      simp [List.length_take]
    calc m = sumValues (((Agg.new N).putSeq vs).data.take q) := hm
      _ ≤ ((((Agg.new N).putSeq vs).data.take q).map (fun o => o.getD 0)).length • c :=
          List.sum_le_card_nsmul _ c hbound
      _ ≤ q * c := by rw [smul_eq_mul]; exact Nat.mul_le_mul_right c hlen
      _ = c * q := Nat.mul_comm q c

/-- C10: `encode_u16_into` into the 4-slot buffer succeeds for every
`n ≤ 9999` with at most 4 digit glyphs; for every `n ≥ 10000` it takes the
out-of-bounds `symbol::MAP` index (fatal).  In the device the fatal case is
unreachable: every accepted draw stored as a face is at most the bound
(≤ 20), and a sum of at most 20 such faces is at most 400. -/
theorem C10_encode :
    (∀ n : ℕ, n ≤ 9999 → ∃ b s, encode_u16_into [0, 0, 0, 0] n = some (b, s) ∧ s ≤ 4) ∧
    (∀ n : ℕ, 10000 ≤ n → encode_u16_into [0, 0, 0, 0] n = none) ∧
    (∀ bound e r : ℕ, 1 ≤ bound → bound ≤ 20 →
      generate (params_for bound) e = some r → r + 1 ≤ 20) ∧
    (∀ (vs : List ℕ) (q m : ℕ), (∀ v ∈ vs, v ≤ 20) → q ≤ 20 →
      ((Agg.new 20).putSeq vs).sum_of_first q = some m → m ≤ 400) := by
  refine ⟨?_, ?_, ?_, ?_⟩
  · intro n hn
    obtain ⟨b, s, heq, hs, hb⟩ := encodeLoop_ok 3 [0, 0, 0, 0] n 0 (by omega)
    rw [encode_u16_into, show [1000, 100, 10, 1] = decimalDivisors 3 from rfl, heq]
    dsimp only
    by_cases hs0 : s = 0
    · rw [if_pos hs0]
      exact ⟨_, 1, rfl, by omega⟩
    · rw [if_neg hs0]
      exact ⟨_, s, rfl, by omega⟩
  · intro n hn
    have hd : ¬ n / 1000 < 10 := by omega
    have hpos : (0 : ℕ) > 0 ∨ n / 1000 > 0 := Or.inr (by omega)
    rw [encode_u16_into]
    simp only [encodeLoop]
    rw [if_pos (by norm_num : (0 : ℕ) < ([0, 0, 0, 0] : List ℕ).length),
      if_pos hpos, if_neg hd]
  · intro bound e r h1 h20 hgen
    have hlt : e % bound < bound := Nat.mod_lt _ (by omega)
    have hbnd : (params_for bound).bound = bound := rfl
    rw [generate] at hgen
    rcases hmeth : (params_for bound).method with _ | limit
    · rw [hmeth] at hgen
      simp only [Option.some.injEq, hbnd] at hgen
      omega
    · rw [hmeth] at hgen
      simp only [hbnd] at hgen
      by_cases he : e ≤ limit
      · rw [if_pos he] at hgen
        simp only [Option.some.injEq] at hgen
        omega
      · rw [if_neg he] at hgen
        exact Option.noConfusion hgen
  · intro vs q m hb hq hsum
    have := sum_le_of_bounded 20 vs q 20 m hb hsum
    omega

/-- C10, witness: the roll-result bound 400 encodes fine (3 digits), while
10000 hits the fatal out-of-bounds glyph index. -/
theorem C10_witness :
    (∃ b s, encode_u16_into [0, 0, 0, 0] 400 = some (b, s) ∧ s ≤ 4) ∧
    encode_u16_into [0, 0, 0, 0] 10000 = none :=
  ⟨C10_encode.1 400 (by norm_num), C10_encode.2.1 10000 (by norm_num)⟩

/-! ## Device-level helper lemmas (claims C7, C9) -/

/-- `enter_rolling` never touches the entropy pool. -/
theorem enter_rolling_entropy (d : Device) (a b : ℕ) :
    (d.enter_rolling a b).entropy = d.entropy := by
  rw [Device.enter_rolling]
  cases d.state <;> rfl

/-- `enter_displaying` never touches the entropy pool. -/
theorem enter_displaying_entropy (d : Device) :
    d.enter_displaying.entropy = d.entropy := by
  rw [Device.enter_displaying]
  cases d.state <;> rfl

/-- `enter_sleeping` never touches the entropy pool. -/
theorem enter_sleeping_entropy (d : Device) :
    d.enter_sleeping.entropy = d.entropy := rfl

/-- `adc_start` never touches the entropy pool. -/
theorem adc_start_entropy (d : Device) (m : Measurement) (d' : Device)
    (h : d.adc_start m = some d') : d'.entropy = d.entropy := by
  rw [Device.adc_start] at h
  by_cases hm : d.adc_measuring.isSome
  · rw [if_pos hm] at h
    exact Option.noConfusion h
  · rw [if_neg hm] at h
    simp only [Option.some.injEq] at h
    rw [← h]

/-- The settings-evaluation pass never touches the entropy pool. -/
theorem test_pots_entropy (d d' : Device) (h : d.test_pots = some d') :
    d'.entropy = d.entropy := by
  rw [Device.test_pots] at h
  dsimp only at h
  repeat' split at h
  all_goals
    first
    | exact Option.noConfusion h
    | (simp only [Option.some.injEq] at h
       rw [← h]
       try simp only [enter_displaying_entropy]
       try rfl)

/-- The motion-evaluation pass never touches the entropy pool. -/
theorem test_acceleration_entropy (d d' : Device) (h : d.test_acceleration = some d') :
    d'.entropy = d.entropy := by
  rw [Device.test_acceleration] at h
  dsimp only at h
  repeat' split at h
  all_goals
    first
    | exact Option.noConfusion h
    | (simp only [Option.some.injEq] at h
       rw [← h]
       try simp only [enter_displaying_entropy, enter_rolling_entropy,
         enter_sleeping_entropy]
       try rfl)

/-! ## Claim C7 -/

set_option maxRecDepth 10000 in
/-- C7, counterexample: a Rolling-state timer tick on a device with entropy
12345 performs a draw (the results ring gains its first entry), yet the
entropy accumulator still holds 12345 afterwards — the pool is read
non-destructively (`self.entropy.0 as u8` with no reset), contradicting the
claim that the read consumes the pool. -/
theorem C7_counterexample :
    devRolling.entropy = 12345 ∧
    (Device.timer_interrupt devRolling).bind rollingResultsFilled = some 1 ∧
    (Device.timer_interrupt devRolling).map Device.entropy = some 12345 := by
  decide

/-- C7, amended: the entropy pool is read non-destructively.  Every timer
tick — including every Rolling-state tick that performs a draw — leaves the
accumulator unchanged; the only updates are `adc_ready`'s wrapping mod-2^16
additions of accelerometer samples, while the knob channels leave it
unchanged. -/
theorem C7_entropy_nondestructive :
    (∀ d d' : Device, d.timer_interrupt = some d' → d'.entropy = d.entropy) ∧
    (∀ (d : Device) (r : ℕ) (d' : Device),
      d.adc_ready Measurement.AccX r = some d' ∨
      d.adc_ready Measurement.AccY r = some d' ∨
      d.adc_ready Measurement.AccZ r = some d' →
      d'.entropy = (d.entropy + r) % 65536) ∧
    (∀ (d : Device) (r : ℕ) (d' : Device),
      d.adc_ready Measurement.PotQuantity r = some d' ∨
      d.adc_ready Measurement.PotQuality r = some d' →
      d'.entropy = d.entropy) := by
  refine ⟨?_, ?_, ?_⟩
  · intro d d' h
    rw [Device.timer_interrupt] at h
    dsimp only at h
    repeat' split at h
    all_goals rw [adc_start_entropy _ _ _ h]
  · intro d r d' h
    rcases h with h | h | h
    · rw [Device.adc_ready] at h
      simp only [Measurement.is_acc, eq_self_iff_true, Bool.false_eq_true,
        if_true, if_false] at h
      try dsimp only at h
      rw [adc_start_entropy _ _ _ h]
    · rw [Device.adc_ready] at h
      simp only [Measurement.is_acc, eq_self_iff_true, Bool.false_eq_true,
        if_true, if_false] at h
      try dsimp only at h
      rw [adc_start_entropy _ _ _ h]
    · rw [Device.adc_ready] at h
      simp only [Measurement.is_acc, eq_self_iff_true, Bool.false_eq_true,
        if_true, if_false] at h
      try dsimp only at h
      split at h
      · exact Option.noConfusion h
      · next d2 heq =>
          rw [test_acceleration_entropy _ _ h, test_pots_entropy _ _ heq]
  · intro d r d' h
    rcases h with h | h
    · rw [Device.adc_ready] at h
      simp only [Measurement.is_acc, eq_self_iff_true, Bool.false_eq_true,
        if_true, if_false] at h
      try dsimp only at h
      rw [adc_start_entropy _ _ _ h]
    · rw [Device.adc_ready] at h
      simp only [Measurement.is_acc, eq_self_iff_true, Bool.false_eq_true,
        if_true, if_false] at h
      try dsimp only at h
      rw [adc_start_entropy _ _ _ h]

set_option maxRecDepth 10000 in
/-- C7, witness: the amendment applied to the concrete Rolling device (the
tick keeps entropy 12345) and to a concrete `AccX` conversion (entropy
500 + 100). -/
theorem C7_witness :
    devRollingAfter.entropy = devRolling.entropy ∧
    devIdleAfterAcc.entropy = (devIdle.entropy + 100) % 65536 := by
  constructor
  · exact C7_entropy_nondestructive.1 devRolling devRollingAfter (by decide)
  · exact C7_entropy_nondestructive.2.1 devIdle 100 devIdleAfterAcc (Or.inl (by decide))

/-! ## Claim C9 -/

/-- C9: from the Sleeping state, a motion-evaluation pass whose disturbance
counter passes the wake threshold with both settings known transitions the
device in that single step directly to Rolling (never to Displaying) and
restores the normal tick rate. -/
theorem C9_wake_to_rolling : ∀ (d : Device) (dt : ℕ) (anim : BlinkingDot)
    (qz lz : Zone) (ax ay az : ℕ),
    d.state = State.Sleeping dt anim →
    d.quantity = some qz → d.quality = some lz →
    d.acc_l2.x.amplitude_full = some ax →
    d.acc_l2.y.amplitude_full = some ay →
    d.acc_l2.z.amplitude_full = some az →
    acc_has_been_balanced ax ay az = false →
    20 ≤ dt → dt < 255 →
    ∃ d' : Device, d.test_acceleration = some d' ∧
      d'.state = State.Rolling (params_for lz.value) qz.value (Agg.new 20) 0 Spinner.new ∧
      d'.tick_rate = TickRate.normal := by
  intro d dt anim qz lz ax ay az hst hq hl hx hy hz hbal hdt hdt255
  have hmod : (dt + 1) % 256 = dt + 1 := Nat.mod_eq_of_lt (by omega)
  rw [Device.test_acceleration, hx, hy, hz, hst]
  dsimp only
  rw [if_neg (by simp [hbal])]
  rw [if_pos (by rw [hmod, TICKS_TO_WAKE]; omega)]
  rw [hq, hl]
  dsimp only
  refine ⟨_, rfl, ?_, ?_⟩
  · rw [Device.enter_rolling]
  · rw [Device.enter_rolling]

/-- C9, witness: the concrete sleeping device with disturbance counter 20,
both settings known, and all amplitudes at 100 wakes directly into
Rolling at the normal tick rate. -/
theorem C9_witness :
    ∃ d' : Device, devSleeping.test_acceleration = some d' ∧
      d'.state = State.Rolling (params_for (scaleZone QUALITY 5).value)
        (scaleZone QUANTITY 10).value (Agg.new 20) 0 Spinner.new ∧
      d'.tick_rate = TickRate.normal :=
  C9_wake_to_rolling devSleeping 20 BlinkingDot.new (scaleZone QUANTITY 10)
    (scaleZone QUALITY 5) 100 100 100 rfl rfl rfl (by decide) (by decide)
    (by decide) (by decide) (by norm_num) (by norm_num)
